import Mathlib

/-!
Shallow embedding of the table-building script of this repository
(`src/tables/build_tables.py`).

Modelling conventions:

* Python strings are modelled by `String`, with the handful of string
  operations the script uses re-implemented by structural recursion on
  the character list so that every definition evaluates inside the
  kernel.
* Python dicts are modelled as insertion-ordered association lists
  (`List (key × value)`): indexing is `dictLookup`, assignment is
  `dictInsert` (replacing in place, like a Python dict), iteration over
  `.items()` is iteration over the list.
* Fallible code (`KeyError`, `ValueError`, `IndexError`, the strict-zip
  failure) is modelled with `Except String`; file input is abstracted to
  the list of lines read from the file.
-/

/-- The whitespace characters recognised by the Python functions
`str.strip` and `str.rstrip`. -/
def isPySpace (c : Char) : Bool :=
  c = ' ' || c = '\t' || c = '\n' || c = '\r' || c = '\x0b' || c = '\x0c'

/-- Python `str.rstrip()` with no argument: remove trailing whitespace. -/
def pyRstrip (s : String) : String :=
  String.mk ((s.data.reverse.dropWhile isPySpace).reverse)

/-- Python `str.strip()` with no argument: remove leading and trailing
whitespace. -/
def pyStrip (s : String) : String :=
  String.mk (((s.data.dropWhile isPySpace).reverse.dropWhile isPySpace).reverse)

/-- Split a character list on a separator character.  The result always
has at least one (possibly empty) piece, matching Python `str.split`
with an explicit separator. -/
def splitChar (sep : Char) : List Char → List (List Char)
  | [] => [[]]
  | c :: rest =>
    match splitChar sep rest with
    | [] => [[c]]
    | h :: t => if c = sep then [] :: h :: t else (c :: h) :: t

/-- Python `str.split(sep)` for a single-character separator. -/
def pySplit (sep : Char) (s : String) : List String :=
  (splitChar sep s.data).map String.mk

/-- The numeric value of one hexadecimal digit, upper or lower case. -/
def hexDigitVal (c : Char) : Option Nat :=
  if '0' ≤ c ∧ c ≤ '9' then some (c.toNat - 48)
  else if 'a' ≤ c ∧ c ≤ 'f' then some (c.toNat - 87)
  else if 'A' ≤ c ∧ c ≤ 'F' then some (c.toNat - 55)
  else none

/-- Model of the Python call `int(s, 16)` for the strings occurring in
these data files: a non-empty string of hexadecimal digits.  (Python
also accepts signs, surrounding whitespace, a `0x` marker and
underscores; none of those forms occur in the inputs the script
documents.)  `none` models the `ValueError` raised on any other
string. -/
def parseHex (s : String) : Option Nat :=
  if s.data.isEmpty then none
  else s.data.foldlM (fun acc c => (hexDigitVal c).map (fun d => 16 * acc + d)) 0

/-- Python string formatting with format spec `x`: lower-case
hexadecimal, no padding. -/
def hexStr (n : Nat) : String :=
  String.mk (Nat.toDigits 16 n)

/-- Python string formatting with format spec `02x`: lower-case
hexadecimal padded to at least two digits. -/
def hex02 (n : Nat) : String :=
  let s := hexStr n
  if s.length < 2 then "0" ++ s else s

/-- One step of Python `str.title()`: a letter is upper-cased when the
previous character was not a letter, and lower-cased otherwise. -/
def pyTitleGo : Bool → List Char → List Char
  | _, [] => []
  | prevAlpha, c :: cs =>
    (if c.isAlpha then (if prevAlpha then c.toLower else c.toUpper) else c)
      :: pyTitleGo c.isAlpha cs

/-- Python `str.title()` (for the ASCII character names appearing in the
Unicode data). -/
def pyTitle (s : String) : String :=
  String.mk (pyTitleGo false s.data)

/-- Python dict indexing `d[k]`: the value stored under the first (and,
with `dictInsert`, only) occurrence of the key. -/
def dictLookup {κ ν : Type} [DecidableEq κ] : List (κ × ν) → κ → Option ν
  | [], _ => none
  | (k', v) :: rest, k => if k' = k then some v else dictLookup rest k

/-- Python dict assignment `d[k] = v`: replace the value in place if the
key is present (keeping its position, as a Python dict does), otherwise
append the new binding. -/
def dictInsert {κ ν : Type} [DecidableEq κ] (k : κ) (v : ν) :
    List (κ × ν) → List (κ × ν)
  | [] => [(k, v)]
  | (k', v') :: rest => if k' = k then (k, v) :: rest else (k', v') :: dictInsert k v rest

/-! ## Data model (`CodePoint`, `EncodingEntry`, lines 54-71) -/

/-- Data relating to a single Unicode code point from the Unicode
Character Database (the dataclass `CodePoint`, lines 57-63). -/
structure CodePoint where
  CodePoint : Nat
  CharacterName : String
  UpperCase : Option Nat
  LowerCase : Option Nat
  TitleCase : Option Nat
deriving DecidableEq, Repr

/-- Data relating to an entry from a RISC OS encoding (the dataclass
`EncodingEntry`, lines 67-71).  `Character` is the byte value. -/
structure EncodingEntry where
  CodePoint : Nat
  Character : Nat
  CharacterName : String
deriving DecidableEq, Repr

/-- Python string comparison `a < b`: lexicographic by code point, a
proper prefix preceding its extensions. -/
def strLtb : List Char → List Char → Bool
  | [], [] => false
  | [], _ :: _ => true
  | _ :: _, [] => false
  | a :: as, b :: bs =>
    if a.toNat < b.toNat then true
    else if b.toNat < a.toNat then false
    else strLtb as bs

/-- The ordering generated by `@dataclass(order=True)` on
`EncodingEntry`: the comparison tuple contains `CodePoint`
(`compare=True`) and `CharacterName` (no `field` specifier, so compared
by default), while `Character` carries `compare=False` and is left out.
This is the strict comparison `a < b` on the tuples
`(a.CodePoint, a.CharacterName) < (b.CodePoint, b.CharacterName)`. -/
def encLt (a b : EncodingEntry) : Bool :=
  decide (a.CodePoint < b.CodePoint) ||
    (decide (a.CodePoint = b.CodePoint) && strLtb a.CharacterName.data b.CharacterName.data)

/-- The non-strict form of `encLt` (`a <= b`, equivalently `not (b < a)`
for this total ordering), used below when modelling the stable
`list.sort()`. -/
def encLe (a b : EncodingEntry) : Bool :=
  !(encLt b a)

/-! ## A stable sort, modelling Python `list.sort()` (line 358)

Python `list.sort()` is a stable sort by the element comparison; for a
total preorder the stable sorted permutation of a list is unique, so any
stable sorting algorithm models it exactly.  We use a structurally
recursive insertion sort so that every application reduces inside the
kernel: `insertStable le x l` walks past every element `y` of `l` with
`le y x` (so `x` lands after all elements it does not strictly precede,
which is what stability requires). -/

/-- Insert `x` into `l`, after every leading element `y` with `le y x`. -/
def insertStable {α : Type} (le : α → α → Bool) (x : α) : List α → List α
  | [] => [x]
  | y :: ys => if le y x then y :: insertStable le x ys else x :: y :: ys

/-- Tail of the insertion sort: insert the remaining elements, left to
right, into the accumulator. -/
def sortGo {α : Type} (le : α → α → Bool) : List α → List α → List α
  | acc, [] => acc
  | acc, x :: xs => sortGo le (insertStable le x acc) xs

/-- Stable insertion sort; the model of Python `list.sort()`. -/
def listSort {α : Type} (le : α → α → Bool) (l : List α) : List α :=
  sortGo le [] l

/-! ## The output tabulator (`Tabulate`, lines 82-172) -/

/-- One element of `Tabulate.rows`: either a plain line added by
`add_line`/`add_space`, or the tuple of column fields added by
`add_row`.  (The dynamically-typed Python list holds `str` and `tuple`
values; the `add_row`/`add_line` type checks that raise `TypeError` on
non-string fields are enforced here by the types.) -/
inductive TabRow where
  | line (s : String)
  | tup (fields : List String)
deriving DecidableEq, Repr

/-- The `Tabulate` accumulator state (constructor, lines 83-93). -/
structure Tabulate where
  tab_width : Nat
  rows : List TabRow
  widths : List Nat
deriving DecidableEq, Repr

/-- `Tabulate(width=w)` (lines 83-93). -/
def Tabulate.init (width : Nat) : Tabulate :=
  { tab_width := width, rows := [], widths := [] }

/-- `Tabulate.clear` (lines 95-101): clear both the stored rows and the
tracked column widths. -/
def Tabulate.clear (t : Tabulate) : Tabulate :=
  { t with rows := [], widths := [] }

/-- The width-tracking loop of `Tabulate.add_row` (lines 113-121):
extend the width list to cover every field index, then take the maximum
of the stored width and the field length at each position. -/
def updateWidths : List Nat → List String → List Nat
  | ws, [] => ws
  | [], f :: fs => f.length :: updateWidths [] fs
  | w :: ws, f :: fs => max w f.length :: updateWidths ws fs

/-- `Tabulate.add_row` (lines 103-125). -/
def Tabulate.add_row (t : Tabulate) (line : List String) : Tabulate :=
  { t with widths := updateWidths t.widths line, rows := t.rows ++ [TabRow.tup line] }

/-- `Tabulate.add_line` (lines 127-139). -/
def Tabulate.add_line (t : Tabulate) (line : String) : Tabulate :=
  { t with rows := t.rows ++ [TabRow.line line] }

/-- `Tabulate.add_space` (lines 141-148): append a blank line only when
rows are already present. -/
def Tabulate.add_space (t : Tabulate) : Tabulate :=
  if t.rows.length > 0 then { t with rows := t.rows ++ [TabRow.line ""] } else t

/-- The per-column rendering of `Tabulate.lines` (lines 163-168): each
field is followed by enough tab characters to reach one tab stop past
the column width.  (Python `"\t" * n` yields the empty string for
negative `n`, matching truncated `Nat` subtraction.) -/
def rowCells (tab_width : Nat) : List (String × Nat) → List String
  | [] => []
  | (f, w) :: rest =>
    f :: String.mk (List.replicate ((w / tab_width + 1) - (f.length / tab_width)) '\t')
      :: rowCells tab_width rest

/-- Rendering of one tabular row (lines 160-170): join the cells and
strip trailing whitespace. -/
def renderTup (tab_width : Nat) (widths : List Nat) (fields : List String) : String :=
  pyRstrip (String.join (rowCells tab_width (fields.zip widths)))

/-- The body of `Tabulate.lines` (lines 157-172).  The call
`zip(line, self.widths, strict=True)` raises `ValueError` whenever the
field count of a tabular row differs from the number of tracked column
widths; that failure is the `Except.error` case. -/
def linesGo (tab_width : Nat) (widths : List Nat) : List TabRow → Except String (List String)
  | [] => Except.ok []
  | TabRow.line s :: rest => (linesGo tab_width widths rest).map (fun r => s :: r)
  | TabRow.tup fs :: rest =>
    if fs.length = widths.length then
      (linesGo tab_width widths rest).map (fun r => renderTup tab_width widths fs :: r)
    else
      Except.error "ValueError: zip() arguments have different lengths"

/-- `Tabulate.lines` (lines 150-172), with the lazily-produced lines
collected into a list. -/
def Tabulate.lines (t : Tabulate) : Except String (List String) :=
  linesGo t.tab_width t.widths t.rows

/-! ## The case change table (`write_case_change_table`, lines 249-288) -/

/-- The local `upper_case` string of `write_case_change_table`
(line 279). -/
def renderUpperCase (character : CodePoint) : String :=
  match character.UpperCase with
  | some u => "0x" ++ hexStr u
  | none => "0x0"

/-- The local `lower_case` string of `write_case_change_table`
(line 280). -/
def renderLowerCase (character : CodePoint) : String :=
  match character.LowerCase with
  | some l => "0x" ++ hexStr l
  | none => "0x0"

/-- The local `title_case` string of `write_case_change_table`
(line 281): the rendered title case falls back to the rendered
`upper_case` string when `TitleCase` is absent. -/
def renderTitleCase (character : CodePoint) : String :=
  match character.TitleCase with
  | some t => "0x" ++ hexStr t
  | none => renderUpperCase character

/-- The row of fields passed to `table.add_row` for one code point
(line 283). -/
def caseRow (codepoint : Nat) (character : CodePoint) : List String :=
  ["", "\x7b0x" ++ hexStr codepoint ++ ",",
   renderUpperCase character ++ ",",
   renderLowerCase character ++ ",",
   renderTitleCase character ++ "\x7d,",
   "// " ++ pyTitle character.CharacterName]

/-- The loop of `write_case_change_table` (lines 275-283): one tabular
row per code point, skipping (`continue`) every entry whose upper, lower
and title case are all absent. -/
def caseRows : List (Nat × CodePoint) → List (List String)
  | [] => []
  | (codepoint, character) :: rest =>
    if character.UpperCase = none ∧ character.LowerCase = none ∧ character.TitleCase = none
    then caseRows rest
    else caseRow codepoint character :: caseRows rest

/-- `write_case_change_table` (lines 249-288): header comment, the data
rows, the end-of-table sentinel row and the closing line, all appended
to the given `Tabulate` accumulator. -/
def write_case_change_table (table : Tabulate) (unicode_data : List (Nat × CodePoint))
    (struct_name : String) : Tabulate :=
  let table := table.add_space
  let table := table.add_line "/**"
  let table := table.add_line " * The list of known character case conversions."
  let table := table.add_line " *"
  let table := table.add_line " * The order of this table is by ascending unicode point, with -1 at"
  let table := table.add_line " * the end as an end stop."
  let table := table.add_line " *"
  let table := table.add_line " * The data in this table was derived from UnicodeData 17.0.0"
  let table := table.add_line " */"
  let table := table.add_space
  let table := table.add_line ("static struct case_character " ++ struct_name ++ "[] = \x7b")
  let table := (caseRows unicode_data).foldl Tabulate.add_row table
  let table := table.add_row ["", "\x7b-1,", "0x0,", "0x0,", "0x0\x7d", "// End of Table"]
  table.add_line "\x7d;"

/-! ## The encoding tables (`build_encoding_table` lines 336-360,
`write_encoding_table` lines 291-332) -/

/-- The loop of `build_encoding_table` (lines 352-356): walk the legacy
byte table with `enumerate` (the running index `character` is the byte
value), skip control bytes (0-31), byte 127 and the 0xffffffff sentinel,
and look every remaining code point up in the Unicode data.  A code
point absent from the Unicode mapping is the uncaught `KeyError` of
`unicode_data[codepoint]`. -/
def buildEncodingEntries (unicode_data : List (Nat × CodePoint)) :
    Nat → List Nat → Except String (List EncodingEntry)
  | _, [] => Except.ok []
  | character, codepoint :: rest =>
    if character < 32 ∨ character = 127 ∨ codepoint = 0xffffffff then
      buildEncodingEntries unicode_data (character + 1) rest
    else
      match dictLookup unicode_data codepoint with
      | none => Except.error "KeyError"
      | some cp =>
        (buildEncodingEntries unicode_data (character + 1) rest).map
          (fun tail => { CodePoint := codepoint, Character := character,
                         CharacterName := cp.CharacterName } :: tail)

/-- `build_encoding_table` (lines 336-360): build the entry list, then
`encoding.sort()`. -/
def build_encoding_table (unicode_data : List (Nat × CodePoint)) (riscos_table : List Nat) :
    Except String (List EncodingEntry) :=
  (buildEncodingEntries unicode_data 0 riscos_table).map (listSort encLe)

/-- The render-time filter of `write_encoding_table` (lines 323-325):
the loop skips (`continue`) every entry whose byte value
(`character.Character`) is below 128. -/
def encodingRendered (encoding_data : List EncodingEntry) : List EncodingEntry :=
  encoding_data.filter (fun character => !decide (character.Character < 128))

/-- The row of fields passed to `table.add_row` for one rendered
encoding entry (line 327). -/
def encodingRow (character : EncodingEntry) : List String :=
  ["", "\x7b" ++ Nat.repr character.CodePoint ++ ",",
   "'\\x" ++ hex02 character.Character ++ "'\x7d,",
   "// " ++ pyTitle character.CharacterName]

/-- `write_encoding_table` (lines 291-332).  The indexing
`riscos_tables[riscos_table_name]` and the call to
`build_encoding_table` can both fail; neither failure is caught here, so
it propagates to the caller. -/
def write_encoding_table (table : Tabulate) (unicode_data : List (Nat × CodePoint))
    (riscos_tables : List (String × List Nat)) (riscos_table_name : String)
    (struct_name : String) (table_title : String) : Except String Tabulate := do
  let riscos_table ←
    match dictLookup riscos_tables riscos_table_name with
    | some l => Except.ok l
    | none => Except.error "KeyError"
  let encoding_data ← build_encoding_table unicode_data riscos_table
  let table := table.add_space
  let table := table.add_line "/**"
  let table := table.add_line (" * UTF8 to " ++ table_title)
  let table := table.add_line " */"
  let table := table.add_space
  let table := table.add_line ("static struct encoding_map " ++ struct_name ++ "[] = \x7b")
  let table := (encodingRendered encoding_data).foldl
    (fun acc character => acc.add_row (encodingRow character)) table
  let table := table.add_row ["", "\x7b0,", "'\\0'\x7d", "// End of Table"]
  Except.ok (table.add_line "\x7d;")

/-! ## The Unicode database importer (`import_unicode_data`,
lines 362-391)

Python never checks the annotated types, so the dictionary the importer
actually builds can hold a `None` key (empty code point field) and a
`None` character name; `RawCodePoint` mirrors the values really
constructed at lines 383-389. -/

/-- The record built by `import_unicode_data` (lines 383-389). -/
structure RawCodePoint where
  CodePoint : Option Nat
  CharacterName : Option String
  UpperCase : Option Nat
  LowerCase : Option Nat
  TitleCase : Option Nat
deriving DecidableEq, Repr

/-- The conditional expression `int(f, 16) if f != '' else None` used
for fields 0, 12, 13 and 14 (lines 381, 386-388): an empty field is
absent, any other field must parse as hexadecimal or the uncaught
`ValueError` aborts the import. -/
def parseOptHex (f : String) : Except String (Option Nat) :=
  if f = "" then Except.ok none
  else
    match parseHex f with
    | some v => Except.ok (some v)
    | none => Except.error "ValueError: invalid literal for int() with base 16"

/-- The body of the line loop of `import_unicode_data` (lines 376-389),
applied to the fields the line was split into: skip the line unless it
has exactly 15 fields, otherwise parse the code point, name and case
fields and store the record. -/
def ucStepFields (characters : List (Option Nat × RawCodePoint)) (fields : List String) :
    Except String (List (Option Nat × RawCodePoint)) :=
  if fields.length ≠ 15 then Except.ok characters
  else do
    let codepoint ← parseOptHex (fields.getD 0 "")
    let name := if fields.getD 1 "" ≠ "" then some (fields.getD 1 "") else none
    let upper ← parseOptHex (fields.getD 12 "")
    let lower ← parseOptHex (fields.getD 13 "")
    let title ← parseOptHex (fields.getD 14 "")
    Except.ok (dictInsert codepoint
      { CodePoint := codepoint, CharacterName := name,
        UpperCase := upper, LowerCase := lower, TitleCase := title } characters)

/-- The line loop body of `import_unicode_data` (lines 376-389): split
the line on `;` (after stripping the trailing newline) and process the
fields. -/
def ucStep (characters : List (Option Nat × RawCodePoint)) (line : String) :
    Except String (List (Option Nat × RawCodePoint)) :=
  ucStepFields characters (pySplit ';' (pyRstrip line))

/-- `import_unicode_data` (lines 362-391) over the list of lines read
from the file. -/
def import_unicode_data (file_lines : List String) :
    Except String (List (Option Nat × RawCodePoint)) :=
  file_lines.foldlM ucStep []

/-! ## The RISC OS UCSTables importer (`import_riscos_ucs_tables`,
lines 394-442) -/

/-- The field loop of a data line (lines 428-433).  `field[0]` on an
empty field raises an uncaught `IndexError`; a field that does not start
with `&` is warned about and skipped; `int(field[1:], 16)` on a
non-hexadecimal remainder raises an uncaught `ValueError`. -/
def ucsFields : List String → Except String (List Nat)
  | [] => Except.ok []
  | f :: fs =>
    match f.data with
    | [] => Except.error "IndexError: string index out of range"
    | c :: rest =>
      if c ≠ '&' then ucsFields fs
      else
        match parseHex (String.mk rest) with
        | none => Except.error "ValueError: invalid literal for int() with base 16"
        | some v => (ucsFields fs).map (fun t => v :: t)

/-- `current_table.append(...)` (line 433): the Python list named
`current_table` is the same object stored in the dict, so appending to
it extends the entry under the current table name. -/
def dictAppend (k : String) (vs : List Nat) :
    List (String × List Nat) → List (String × List Nat) :=
  List.map (fun p => if p.1 = k then (p.1, p.2 ++ vs) else p)

/-- The body of the line loop of `import_riscos_ucs_tables`
(lines 410-440).  The state is the table dictionary together with the
name of the current table (`None` before any table-name line). -/
def ucsStep (st : List (String × List Nat) × Option String) (raw : String) :
    Except String (List (String × List Nat) × Option String) :=
  let line := pyStrip raw
  match line.data with
  | [] => Except.ok st
  | c :: rest =>
    if c = ';' ∨ c = '[' ∨ c = ']' then Except.ok st
    else if c = '&' then
      match st.2 with
      | none => Except.ok st
      | some current =>
        if rest.take 1 ≠ [' '] then Except.ok st
        else do
          let vals ← ucsFields (pySplit ',' (String.mk (rest.drop 1)))
          Except.ok (dictAppend current vals st.1, st.2)
    else
      Except.ok (dictInsert line [] st.1, some line)

/-- `import_riscos_ucs_tables` (lines 394-442) over the list of lines
read from the file. -/
def import_riscos_ucs_tables (file_lines : List String) :
    Except String (List (String × List Nat)) :=
  (file_lines.foldlM ucsStep ([], none)).map (fun st => st.1)

/-! ## Auxiliary definitions used by the statements below -/

/-- The operations a caller can perform on a `Tabulate` accumulator
between two renderings. -/
inductive TabOp where
  | row (fields : List String)
  | line (s : String)
  | space

/-- Apply one accumulator operation. -/
def applyOp (t : Tabulate) : TabOp → Tabulate
  | TabOp.row fields => t.add_row fields
  | TabOp.line s => t.add_line s
  | TabOp.space => t.add_space

/-- Apply a sequence of accumulator operations, oldest first. -/
def applyOps (t : Tabulate) (ops : List TabOp) : Tabulate :=
  ops.foldl applyOp t

/-- The number of fields `import_unicode_data` splits a line into
(line 377). -/
def ucFieldCount (line : String) : Nat :=
  (pySplit ';' (pyRstrip line)).length

/-- A field of the Unicode database on which the conditional
`int(f, 16) if f != '' else None` cannot raise: empty, or valid
hexadecimal. -/
def ucFieldOk (f : String) : Bool :=
  f == "" || (parseHex f).isSome

/-- A line of the Unicode database on which `import_unicode_data`
cannot raise: either it does not have exactly 15 fields (and is
skipped), or its code point, upper, lower and title fields all parse. -/
def ucFieldsGood (fields : List String) : Bool :=
  fields.length != 15 ||
    (ucFieldOk (fields.getD 0 "") && ucFieldOk (fields.getD 12 "") &&
      ucFieldOk (fields.getD 13 "") && ucFieldOk (fields.getD 14 ""))

/-- A line of the Unicode database on which `import_unicode_data`
cannot raise. -/
def ucLineGood (line : String) : Bool :=
  ucFieldsGood (pySplit ';' (pyRstrip line))

/-- A field of a UCSTables data line on which the field loop cannot
raise: non-empty, and either not starting with `&` (warned about and
skipped) or hexadecimal after the `&`. -/
def ucsFieldOk (f : String) : Bool :=
  match f.data with
  | [] => false
  | c :: rest => c != '&' || (parseHex (String.mk rest)).isSome

/-- A line of the UCSTables dump on which `import_riscos_ucs_tables`
cannot raise: blank, comment, conditional, table name, data line
without the `& ` separator (warned about and skipped), or a data line
all of whose fields satisfy `ucsFieldOk`. -/
def ucsLineGood (line : String) : Bool :=
  match (pyStrip line).data with
  | [] => true
  | c :: rest =>
    if c = ';' || c = '[' || c = ']' then true
    else if c = '&' then
      rest.take 1 != [' '] || (pySplit ',' (String.mk (rest.drop 1))).all ucsFieldOk
    else true

/-- A data line of the UCSTables dump lacking the `& ` separator: the
parser logs `Unexpected UCSTable line` and skips it, in every parser
state. -/
def ucsWarnLine (line : String) : Bool :=
  match (pyStrip line).data with
  | [] => false
  | c :: rest => c == '&' && rest.take 1 != [' ']

/-! ## Concrete sample inputs used by the witnesses below -/

/-- A small Unicode mapping: three code points with names. -/
def sampleUd : List (Nat × CodePoint) :=
  [(0x41, { CodePoint := 0x41, CharacterName := "LATIN CAPITAL LETTER A",
            UpperCase := none, LowerCase := some 0x61, TitleCase := none }),
   (0xC5, { CodePoint := 0xC5, CharacterName := "LATIN CAPITAL LETTER A WITH RING ABOVE",
            UpperCase := none, LowerCase := some 0xE5, TitleCase := none }),
   (0xE5, { CodePoint := 0xE5, CharacterName := "LATIN SMALL LETTER A WITH RING ABOVE",
            UpperCase := some 0xC5, LowerCase := none, TitleCase := none })]

/-- A legacy byte table of 193 slots: byte 32 maps to U+00E5, byte 33 to
U+00C5, byte 0xC0 to U+0041, and every other slot holds the 0xffffffff
sentinel. -/
def sampleRt : List Nat :=
  List.replicate 32 0xffffffff ++ [0xE5, 0xC5] ++ List.replicate 158 0xffffffff ++ [0x41]

/-- A legacy byte table in which two distinct byte values (32 and 33)
map to the same code point U+00E5. -/
def sampleRt2 : List Nat :=
  List.replicate 32 0xffffffff ++ [0xE5, 0xE5]

/-- A legacy byte table whose slot 32 holds U+0100, a code point absent
from `sampleUd`. -/
def sampleRtMissing : List Nat :=
  List.replicate 32 0xffffffff ++ [0x100]

/-- The Unicode record of U+0041 in `sampleUd`: lower case defined,
upper and title absent. -/
def sampleCpA : CodePoint :=
  { CodePoint := 0x41, CharacterName := "LATIN CAPITAL LETTER A",
    UpperCase := none, LowerCase := some 0x61, TitleCase := none }

/-- The encoding entry built from slot 0xC0 of `sampleRt`. -/
def sampleEntryA : EncodingEntry :=
  { CodePoint := 0x41, Character := 0xC0, CharacterName := "LATIN CAPITAL LETTER A" }

/-- The encoding entry built from slot 33 of `sampleRt`. -/
def sampleEntryB : EncodingEntry :=
  { CodePoint := 0xC5, Character := 33,
    CharacterName := "LATIN CAPITAL LETTER A WITH RING ABOVE" }

/-- The encoding entry built from slot 32 of `sampleRt`. -/
def sampleEntryC : EncodingEntry :=
  { CodePoint := 0xE5, Character := 32,
    CharacterName := "LATIN SMALL LETTER A WITH RING ABOVE" }

/-- The sorted encoding table built from `sampleUd` and `sampleRt`. -/
def sampleOut : List EncodingEntry :=
  [sampleEntryA, sampleEntryB, sampleEntryC]

/-- The (unsorted) encoding entries built from `sampleUd` and
`sampleRt2`: the same code point from two byte values. -/
def sampleRt2Entries : List EncodingEntry :=
  [{ CodePoint := 0xE5, Character := 32,
     CharacterName := "LATIN SMALL LETTER A WITH RING ABOVE" },
   { CodePoint := 0xE5, Character := 33,
     CharacterName := "LATIN SMALL LETTER A WITH RING ABOVE" }]

/-! ## Order facts about the dataclass comparison -/

theorem strLtb_irrefl : ∀ x : List Char, strLtb x x = false
  | [] => rfl
  | _ :: cs => by simp [strLtb, strLtb_irrefl cs]

theorem strLtb_cons {a b : Char} {as bs : List Char} :
    strLtb (a :: as) (b :: bs) = true ↔
      a.toNat < b.toNat ∨ (a.toNat = b.toNat ∧ strLtb as bs = true) := by
  simp only [strLtb]
  split_ifs with h1 h2
  · simp [h1]
  · simp
    exact ⟨by omega, fun h => absurd h (by omega)⟩
  · simp [(by omega : ¬ a.toNat < b.toNat), (by omega : a.toNat = b.toNat)]

theorem strLtb_trans : ∀ x y z : List Char,
    strLtb x y = true → strLtb y z = true → strLtb x z = true
  | [], [], _ => by simp [strLtb]
  | [], _ :: _, [] => by simp [strLtb]
  | [], _ :: _, _ :: _ => by simp [strLtb]
  | _ :: _, [], _ => by simp [strLtb]
  | _ :: _, _ :: _, [] => by simp [strLtb]
  | a :: as, b :: bs, c :: cs => by
    rw [strLtb_cons, strLtb_cons, strLtb_cons]
    intro h1 h2
    rcases h1 with h1 | ⟨e1, h1⟩ <;> rcases h2 with h2 | ⟨e2, h2⟩
    · exact Or.inl (by omega)
    · exact Or.inl (by omega)
    · exact Or.inl (by omega)
    · exact Or.inr ⟨by omega, strLtb_trans as bs cs h1 h2⟩

theorem strLtb_asymm (x y : List Char) (h : strLtb x y = true) : strLtb y x = false := by
  cases eq : strLtb y x
  · rfl
  · have h2 := strLtb_trans x y x h eq
    rw [strLtb_irrefl] at h2
    exact absurd h2 (by simp)

theorem strLtb_eq_of_not : ∀ x y : List Char,
    strLtb x y = false → strLtb y x = false → x = y
  | [], [], _, _ => rfl
  | [], _ :: _, h, _ => by simp [strLtb] at h
  | _ :: _, [], _, h => by simp [strLtb] at h
  | a :: as, b :: bs, h1, h2 => by
    rw [Bool.eq_false_iff, Ne, strLtb_cons] at h1 h2
    push_neg at h1 h2
    have hab : a.toNat = b.toNat := by omega
    have h1' : strLtb as bs = false := Bool.eq_false_iff.mpr (h1.2 hab)
    have h2' : strLtb bs as = false := Bool.eq_false_iff.mpr (h2.2 hab.symm)
    have hc : a = b := Char.eq_of_val_eq (UInt32.ext hab)
    rw [hc, strLtb_eq_of_not as bs h1' h2']

theorem encLt_iff {a b : EncodingEntry} :
    encLt a b = true ↔ a.CodePoint < b.CodePoint ∨
      (a.CodePoint = b.CodePoint ∧ strLtb a.CharacterName.data b.CharacterName.data = true) := by
  simp [encLt]

theorem encLt_asymm (a b : EncodingEntry) (h : encLt a b = true) : encLt b a = false := by
  cases eq : encLt b a
  · rfl
  · exfalso
    rw [encLt_iff] at h eq
    rcases h with h | ⟨e1, h⟩ <;> rcases eq with hq | ⟨e2, hq⟩ <;> try omega
    rw [strLtb_asymm _ _ h] at hq
    exact absurd hq (by simp)

theorem encLe_iff {a b : EncodingEntry} : encLe a b = true ↔ encLt b a = false := by
  simp [encLe]

theorem encLe_total (a b : EncodingEntry) : encLe a b = true ∨ encLe b a = true := by
  cases eq : encLt b a
  · exact Or.inl (by simp [encLe, eq])
  · exact Or.inr (by simp [encLe, encLt_asymm b a eq])

theorem encLe_trans (a b c : EncodingEntry) (h1 : encLe a b = true) (h2 : encLe b c = true) :
    encLe a c = true := by
  rw [encLe_iff, Bool.eq_false_iff, Ne, encLt_iff] at h1 h2 ⊢
  push_neg at h1 h2 ⊢
  refine ⟨by omega, fun hca eq => ?_⟩
  have hba : b.CodePoint = a.CodePoint := by omega
  have hcb : c.CodePoint = b.CodePoint := by omega
  have hba' : strLtb b.CharacterName.data a.CharacterName.data = false :=
    Bool.eq_false_iff.mpr (h1.2 hba)
  have hcb' : strLtb c.CharacterName.data b.CharacterName.data = false :=
    Bool.eq_false_iff.mpr (h2.2 hcb)
  cases eq2 : strLtb a.CharacterName.data b.CharacterName.data
  · have heq := strLtb_eq_of_not _ _ eq2 hba'
    rw [heq] at eq
    rw [eq] at hcb'
    exact absurd hcb' (by simp)
  · have h3 := strLtb_trans _ _ _ eq eq2
    rw [h3] at hcb'
    exact absurd hcb' (by simp)

theorem encLe_of_eq (a b : EncodingEntry) (hcp : a.CodePoint = b.CodePoint)
    (hn : a.CharacterName = b.CharacterName) : encLe a b = true := by
  rw [encLe_iff, Bool.eq_false_iff, Ne, encLt_iff]
  push_neg
  exact ⟨by omega, fun _ => by rw [hn, strLtb_irrefl]; simp⟩

theorem encLe_codepoint_le (a b : EncodingEntry) (h : encLe a b = true) :
    a.CodePoint ≤ b.CodePoint := by
  rw [encLe_iff, Bool.eq_false_iff, Ne, encLt_iff] at h
  push_neg at h
  omega

/-! ## Facts about the stable sort -/

theorem insertStable_perm {α : Type} (le : α → α → Bool) (x : α) :
    ∀ l : List α, List.Perm (insertStable le x l) (x :: l)
  | [] => List.Perm.refl _
  | y :: ys => by
    simp only [insertStable]
    split
    · exact ((insertStable_perm le x ys).cons y).trans (List.Perm.swap x y ys)
    · exact List.Perm.refl _

theorem mem_insertStable {α : Type} {le : α → α → Bool} {x a : α} {l : List α} :
    a ∈ insertStable le x l ↔ a = x ∨ a ∈ l := by
  simpa using (insertStable_perm le x l).mem_iff

theorem sortGo_perm {α : Type} (le : α → α → Bool) :
    ∀ (l acc : List α), List.Perm (sortGo le acc l) (acc ++ l)
  | [], acc => by simp [sortGo]
  | x :: xs, acc => by
    simp only [sortGo]
    refine (sortGo_perm le xs (insertStable le x acc)).trans ?_
    refine (((insertStable_perm le x acc).append_right xs)).trans ?_
    simpa using List.perm_middle.symm

theorem listSort_perm {α : Type} (le : α → α → Bool) (l : List α) : List.Perm (listSort le l) l := by
  simpa [listSort] using sortGo_perm le l []

theorem mem_listSort {α : Type} {le : α → α → Bool} {a : α} {l : List α} :
    a ∈ listSort le l ↔ a ∈ l :=
  (listSort_perm le l).mem_iff

theorem insertStable_pairwise {α : Type} (le : α → α → Bool)
    (htot : ∀ a b, le a b = true ∨ le b a = true)
    (htrans : ∀ a b c, le a b = true → le b c = true → le a c = true) (x : α) :
    ∀ l : List α, l.Pairwise (fun a b => le a b = true) →
      (insertStable le x l).Pairwise (fun a b => le a b = true)
  | [], _ => by simp [insertStable]
  | y :: ys, h => by
    rw [List.pairwise_cons] at h
    obtain ⟨hy, hys⟩ := h
    simp only [insertStable]
    by_cases hle : le y x = true
    · rw [if_pos hle, List.pairwise_cons]
      refine ⟨?_, insertStable_pairwise le htot htrans x ys hys⟩
      intro a ha
      rcases mem_insertStable.mp ha with rfl | ha
      · exact hle
      · exact hy a ha
    · rw [if_neg hle, List.pairwise_cons]
      have hxy : le x y = true := (htot y x).resolve_left hle
      refine ⟨?_, List.pairwise_cons.mpr ⟨hy, hys⟩⟩
      intro a ha
      rcases List.mem_cons.mp ha with rfl | ha
      · exact hxy
      · exact htrans x y a hxy (hy a ha)

theorem sortGo_pairwise {α : Type} (le : α → α → Bool)
    (htot : ∀ a b, le a b = true ∨ le b a = true)
    (htrans : ∀ a b c, le a b = true → le b c = true → le a c = true) :
    ∀ (l acc : List α), acc.Pairwise (fun a b => le a b = true) →
      (sortGo le acc l).Pairwise (fun a b => le a b = true)
  | [], _, h => h
  | x :: xs, acc, h =>
    sortGo_pairwise le htot htrans xs (insertStable le x acc)
      (insertStable_pairwise le htot htrans x acc h)

theorem listSort_pairwise {α : Type} (le : α → α → Bool)
    (htot : ∀ a b, le a b = true ∨ le b a = true)
    (htrans : ∀ a b c, le a b = true → le b c = true → le a c = true) (l : List α) :
    (listSort le l).Pairwise (fun a b => le a b = true) :=
  sortGo_pairwise le htot htrans l [] (by simp)

theorem filter_insertStable_neg {α : Type} (le : α → α → Bool) (p : α → Bool) (x : α)
    (hx : p x = false) :
    ∀ l : List α, (insertStable le x l).filter p = l.filter p
  | [] => by simp [insertStable, hx]
  | y :: ys => by
    simp only [insertStable]
    by_cases hle : le y x = true
    · rw [if_pos hle]
      simp [List.filter_cons, filter_insertStable_neg le p x hx ys]
    · rw [if_neg hle]
      simp [List.filter_cons, hx]

theorem filter_insertStable_pos {α : Type} (le : α → α → Bool) (p : α → Bool) (x : α)
    (htrans : ∀ a b c, le a b = true → le b c = true → le a c = true)
    (hx : p x = true) :
    ∀ l : List α, l.Pairwise (fun a b => le a b = true) →
      (∀ y ∈ l, p y = true → le y x = true) →
      (insertStable le x l).filter p = l.filter p ++ [x]
  | [], _, _ => by simp [insertStable, hx]
  | y :: ys, hp, hall => by
    rw [List.pairwise_cons] at hp
    simp only [insertStable]
    by_cases hle : le y x = true
    · rw [if_pos hle]
      have ih := filter_insertStable_pos le p x htrans hx ys hp.2
        (fun z hz hpz => hall z (List.mem_cons_of_mem y hz) hpz)
      cases hpy : p y <;> simp [List.filter_cons, hpy, ih]
    · rw [if_neg hle]
      have hnil : (y :: ys).filter p = [] := by
        rw [List.filter_eq_nil_iff]
        intro z hz hpz
        rcases List.mem_cons.mp hz with rfl | hz
        · exact hle (hall z (List.mem_cons_self z ys) hpz)
        · exact hle (htrans y z x (hp.1 z hz) (hall z (List.mem_cons_of_mem y hz) hpz))
      simp [List.filter_cons, hx, hnil]

theorem filter_sortGo {α : Type} (le : α → α → Bool) (p : α → Bool)
    (htot : ∀ a b, le a b = true ∨ le b a = true)
    (htrans : ∀ a b c, le a b = true → le b c = true → le a c = true) :
    ∀ (l acc : List α), acc.Pairwise (fun a b => le a b = true) →
      (∀ y ∈ acc, ∀ x ∈ l, p y = true → p x = true → le y x = true) →
      (∀ x ∈ l, ∀ y ∈ l, p x = true → p y = true → le x y = true) →
      (sortGo le acc l).filter p = acc.filter p ++ l.filter p
  | [], acc, _, _, _ => by simp [sortGo]
  | x :: xs, acc, hacc, hcross, hl => by
    simp only [sortGo]
    have hacc' := insertStable_pairwise le htot htrans x acc hacc
    have hcross' : ∀ y ∈ insertStable le x acc, ∀ z ∈ xs,
        p y = true → p z = true → le y z = true := by
      intro y hy z hz hpy hpz
      rcases mem_insertStable.mp hy with rfl | hy
      · exact hl y (List.mem_cons_self y xs) z (List.mem_cons_of_mem _ hz) hpy hpz
      · exact hcross y hy z (List.mem_cons_of_mem x hz) hpy hpz
    have hl' : ∀ z ∈ xs, ∀ y ∈ xs, p z = true → p y = true → le z y = true :=
      fun z hz y hy => hl z (List.mem_cons_of_mem x hz) y (List.mem_cons_of_mem x hy)
    rw [filter_sortGo le p htot htrans xs (insertStable le x acc) hacc' hcross' hl']
    cases hpx : p x
    · rw [filter_insertStable_neg le p x hpx acc]
      simp [List.filter_cons, hpx]
    · rw [filter_insertStable_pos le p x htrans hpx acc hacc
        (fun y hy hpy => hcross y hy x (List.mem_cons_self x xs) hpy hpx)]
      simp [List.filter_cons, hpx]

theorem filter_listSort {α : Type} (le : α → α → Bool) (p : α → Bool)
    (htot : ∀ a b, le a b = true ∨ le b a = true)
    (htrans : ∀ a b c, le a b = true → le b c = true → le a c = true)
    (l : List α)
    (hmut : ∀ x ∈ l, ∀ y ∈ l, p x = true → p y = true → le x y = true) :
    (listSort le l).filter p = l.filter p := by
  simpa [listSort] using
    filter_sortGo le p htot htrans l [] (by simp) (by simp) hmut

/-! ## Facts about the encoding table builder -/

theorem buildEncodingEntries_props (ud : List (Nat × CodePoint)) :
    ∀ (k : Nat) (l : List Nat) (res : List EncodingEntry),
      buildEncodingEntries ud k l = Except.ok res →
      ∀ e ∈ res, 32 ≤ e.Character ∧ e.Character ≠ 127 ∧ e.CodePoint ≠ 0xffffffff ∧
        ∃ cp, dictLookup ud e.CodePoint = some cp ∧ e.CharacterName = cp.CharacterName
  | _, [], res, h => by
    simp only [buildEncodingEntries, Except.ok.injEq] at h
    subst h
    intro e he
    simp at he
  | k, codepoint :: rest, res, h => by
    simp only [buildEncodingEntries] at h
    by_cases hskip : k < 32 ∨ k = 127 ∨ codepoint = 0xffffffff
    · rw [if_pos hskip] at h
      exact buildEncodingEntries_props ud (k + 1) rest res h
    · rw [if_neg hskip] at h
      cases hl : dictLookup ud codepoint with
      | none => rw [hl] at h; exact absurd h (by simp)
      | some cp =>
        rw [hl] at h
        cases hrec : buildEncodingEntries ud (k + 1) rest with
        | error msg => rw [hrec] at h; exact absurd h (by simp [Except.map])
        | ok tail =>
          rw [hrec] at h
          simp only [Except.map, Except.ok.injEq] at h
          subst h
          intro e he
          rcases List.mem_cons.mp he with rfl | he
          · push_neg at hskip
            obtain ⟨h1, h2, h3⟩ := hskip
            exact ⟨(by omega : 32 ≤ k), h2, h3, cp, hl, rfl⟩
          · exact buildEncodingEntries_props ud (k + 1) rest tail hrec e he

theorem buildEncodingEntries_missing (ud : List (Nat × CodePoint)) :
    ∀ (k : Nat) (l : List Nat) (i : Nat) (hi : i < l.length),
      ¬(k + i < 32 ∨ k + i = 127 ∨ l.get ⟨i, hi⟩ = 0xffffffff) →
      dictLookup ud (l.get ⟨i, hi⟩) = none →
      buildEncodingEntries ud k l = Except.error "KeyError"
  | k, codepoint :: rest, 0, _, hskip, hmiss => by
    simp only [List.get, Nat.add_zero] at hskip hmiss
    simp only [buildEncodingEntries]
    rw [if_neg hskip, hmiss]
  | k, codepoint :: rest, i + 1, hi, hskip, hmiss => by
    have hi' : i < rest.length := by
      simp only [List.length_cons] at hi
      omega
    simp only [List.get] at hskip hmiss
    have hskip' : ¬(k + 1 + i < 32 ∨ k + 1 + i = 127 ∨ rest.get ⟨i, hi'⟩ = 0xffffffff) := by
      intro hcon
      apply hskip
      rcases hcon with h | h | h
      · exact Or.inl (by omega)
      · exact Or.inr (Or.inl (by omega))
      · exact Or.inr (Or.inr h)
    have hmiss' : dictLookup ud (rest.get ⟨i, hi'⟩) = none := hmiss
    have ih := buildEncodingEntries_missing ud (k + 1) rest i hi' hskip' hmiss'
    simp only [buildEncodingEntries]
    by_cases hs : k < 32 ∨ k = 127 ∨ codepoint = 0xffffffff
    · rw [if_pos hs]
      exact ih
    · rw [if_neg hs]
      cases hl : dictLookup ud codepoint with
      | none => rfl
      | some cp => rw [ih]; rfl

theorem build_encoding_table_ok (ud : List (Nat × CodePoint)) (rt : List Nat)
    (out : List EncodingEntry) (h : build_encoding_table ud rt = Except.ok out) :
    ∃ l, buildEncodingEntries ud 0 rt = Except.ok l ∧ out = listSort encLe l := by
  unfold build_encoding_table at h
  cases hq : buildEncodingEntries ud 0 rt with
  | error e => rw [hq] at h; exact absurd h (by simp [Except.map])
  | ok l =>
    rw [hq] at h
    simp only [Except.map, Except.ok.injEq] at h
    exact ⟨l, rfl, h.symm⟩

/-! ## Facts about the tabulator -/

theorem linesGo_error (w : Nat) (ws : List Nat) :
    ∀ (rows : List TabRow) (fs : List String), TabRow.tup fs ∈ rows →
      fs.length ≠ ws.length → (linesGo w ws rows).isOk = false
  | [], fs, hmem, _ => by simp at hmem
  | TabRow.line s :: rest, fs, hmem, hne => by
    have hmem' : TabRow.tup fs ∈ rest := by
      rcases List.mem_cons.mp hmem with h | h
      · exact absurd h (by simp)
      · exact h
    have ih := linesGo_error w ws rest fs hmem' hne
    simp only [linesGo]
    cases hq : linesGo w ws rest with
    | error e => simp [Except.map, Except.isOk, Except.toBool]
    | ok l => rw [hq] at ih; exact absurd ih (by simp [Except.isOk, Except.toBool])
  | TabRow.tup gs :: rest, fs, hmem, hne => by
    simp only [linesGo]
    by_cases hlen : gs.length = ws.length
    · rw [if_pos hlen]
      have hmem' : TabRow.tup fs ∈ rest := by
        rcases List.mem_cons.mp hmem with h | h
        · injection h with h'
          exact absurd hlen (h' ▸ hne)
        · exact h
      have ih := linesGo_error w ws rest fs hmem' hne
      cases hq : linesGo w ws rest with
      | error e => simp [Except.map, Except.isOk, Except.toBool]
      | ok l => rw [hq] at ih; exact absurd ih (by simp [Except.isOk, Except.toBool])
    · rw [if_neg hlen]
      rfl

theorem clear_eq_of_width_eq (t1 t2 : Tabulate) (h : t1.tab_width = t2.tab_width) :
    t1.clear = t2.clear := by
  cases t1
  cases t2
  simp only [Tabulate.clear, Tabulate.mk.injEq]
  exact ⟨h, trivial, trivial⟩

/-! ## Facts about the case table rows -/

theorem caseRows_eq_filter : ∀ ud : List (Nat × CodePoint),
    caseRows ud = (ud.filter fun p =>
        p.2.UpperCase.isSome || p.2.LowerCase.isSome || p.2.TitleCase.isSome).map
      (fun p => caseRow p.1 p.2)
  | [] => rfl
  | (cp, ch) :: rest => by
    simp only [caseRows, List.filter_cons]
    by_cases h : ch.UpperCase = none ∧ ch.LowerCase = none ∧ ch.TitleCase = none
    · rw [if_pos h]
      have hq : (ch.UpperCase.isSome || ch.LowerCase.isSome || ch.TitleCase.isSome) = false := by
        simp [h.1, h.2.1, h.2.2]
      simp [hq, caseRows_eq_filter rest]
    · rw [if_neg h]
      have hq : (ch.UpperCase.isSome || ch.LowerCase.isSome || ch.TitleCase.isSome) = true := by
        rcases hu : ch.UpperCase with _ | u
        · rcases hl : ch.LowerCase with _ | v
          · rcases ht : ch.TitleCase with _ | w
            · exact absurd ⟨hu, hl, ht⟩ h
            · simp
          · simp
        · simp
      simp [hq, caseRows_eq_filter rest]

/-! ## Facts about the parsers -/

theorem foldlM_isOk {σ : Type} (f : σ → String → Except String σ) :
    ∀ (ls : List String) (init : σ),
      (∀ (s : σ) (l : String), l ∈ ls → (f s l).isOk = true) →
      (ls.foldlM f init).isOk = true
  | [], _, _ => rfl
  | a :: rest, init, h => by
    rw [List.foldlM_cons]
    have ha := h init a (List.mem_cons_self a rest)
    cases hq : f init a with
    | error e => rw [hq] at ha; exact absurd ha (by simp [Except.isOk, Except.toBool])
    | ok s =>
      simp only [hq, bind, Except.bind]
      exact foldlM_isOk f rest s (fun s' l hl => h s' l (List.mem_cons_of_mem _ hl))

theorem parseOptHex_ok (f : String) (h : ucFieldOk f = true) :
    ∃ v, parseOptHex f = Except.ok v := by
  unfold parseOptHex
  by_cases he : f = ""
  · rw [if_pos he]
    exact ⟨none, rfl⟩
  · rw [if_neg he]
    unfold ucFieldOk at h
    have h' : (parseHex f).isSome = true := by
      cases hp : parseHex f
      · rw [hp] at h
        simp [he] at h
      · simp
    obtain ⟨v, hv⟩ := Option.isSome_iff_exists.mp h'
    rw [hv]
    exact ⟨some v, rfl⟩

theorem ucStepFields_skip (chars : List (Option Nat × RawCodePoint)) (fields : List String)
    (h : fields.length ≠ 15) : ucStepFields chars fields = Except.ok chars := by
  unfold ucStepFields
  rw [if_pos h]

theorem ucStepFields_ok (chars : List (Option Nat × RawCodePoint)) (fields : List String)
    (h : ucFieldsGood fields = true) : (ucStepFields chars fields).isOk = true := by
  unfold ucStepFields
  by_cases h15 : fields.length ≠ 15
  · rw [if_pos h15]
    rfl
  · rw [if_neg h15]
    push_neg at h15
    unfold ucFieldsGood at h
    rw [h15] at h
    simp only [bne_self_eq_false, Bool.false_or, Bool.and_eq_true] at h
    obtain ⟨⟨⟨h0, h12⟩, h13⟩, h14⟩ := h
    obtain ⟨v0, hv0⟩ := parseOptHex_ok _ h0
    obtain ⟨v12, hv12⟩ := parseOptHex_ok _ h12
    obtain ⟨v13, hv13⟩ := parseOptHex_ok _ h13
    obtain ⟨v14, hv14⟩ := parseOptHex_ok _ h14
    simp only [bind, Except.bind, hv0, hv12, hv13, hv14]
    rfl

theorem foldlM_skip_middle {σ : Type} (f : σ → String → Except String σ) (l : String)
    (hl : ∀ s, f s l = Except.ok s) :
    ∀ (pre post : List String) (init : σ),
      (pre ++ l :: post).foldlM f init = (pre ++ post).foldlM f init
  | [], post, init => by
    simp only [List.nil_append, List.foldlM_cons, hl init, bind, Except.bind]
  | a :: pre, post, init => by
    simp only [List.cons_append, List.foldlM_cons]
    cases hq : f init a with
    | error e => simp [hq, bind, Except.bind]
    | ok s =>
      simp only [hq, bind, Except.bind]
      exact foldlM_skip_middle f l hl pre post s

theorem ucsFields_ok : ∀ fs : List String, (∀ f ∈ fs, ucsFieldOk f = true) →
    ∃ vs, ucsFields fs = Except.ok vs
  | [], _ => ⟨[], rfl⟩
  | f :: fs, h => by
    have hf := h f (List.mem_cons_self f fs)
    unfold ucsFieldOk at hf
    obtain ⟨vs, hvs⟩ := ucsFields_ok fs (fun g hg => h g (List.mem_cons_of_mem _ hg))
    simp only [ucsFields]
    cases hd : f.data with
    | nil => rw [hd] at hf; simp at hf
    | cons c rest =>
      rw [hd] at hf
      by_cases hc : c = '&'
      · have hsome : (parseHex (String.mk rest)).isSome = true := by
          simp only [hc] at hf
          simpa using hf
        obtain ⟨v, hv⟩ := Option.isSome_iff_exists.mp hsome
        refine ⟨v :: vs, ?_⟩
        simp [hc, hv, hvs, Except.map]
      · refine ⟨vs, ?_⟩
        simp [hc, hvs]

theorem ucsStep_warn (l : String) (h : ucsWarnLine l = true)
    (st : List (String × List Nat) × Option String) : ucsStep st l = Except.ok st := by
  obtain ⟨tables, cur⟩ := st
  unfold ucsWarnLine at h
  simp only [ucsStep]
  cases hd : (pyStrip l).data with
  | nil => rw [hd] at h
  | cons c rest =>
    rw [hd] at h
    simp only [Bool.and_eq_true, beq_iff_eq, bne_iff_ne, ne_eq] at h
    obtain ⟨h1, h2⟩ := h
    simp only []
    rw [if_neg (by simp [h1]), if_pos h1]
    cases cur with
    | none => rfl
    | some current =>
      simp only []
      rw [if_pos h2]

theorem ucsStep_ok (l : String) (h : ucsLineGood l = true)
    (st : List (String × List Nat) × Option String) : (ucsStep st l).isOk = true := by
  obtain ⟨tables, cur⟩ := st
  unfold ucsLineGood at h
  simp only [ucsStep]
  cases hd : (pyStrip l).data with
  | nil => rfl
  | cons c rest =>
    rw [hd] at h
    simp only [] at h ⊢
    by_cases hcom : c = ';' ∨ c = '[' ∨ c = ']'
    · rw [if_pos hcom]
      rfl
    · rw [if_neg hcom]
      by_cases hamp : c = '&'
      · rw [if_pos hamp]
        cases cur with
        | none => rfl
        | some current =>
          simp only []
          by_cases hsep : rest.take 1 ≠ [' ']
          · rw [if_pos hsep]
            rfl
          · rw [if_neg hsep]
            have hall : ∀ f ∈ pySplit ',' (String.mk (rest.drop 1)), ucsFieldOk f = true := by
              have hb : (decide (c = ';') || decide (c = '[') || decide (c = ']')) = false := by
                simp
                exact ⟨⟨fun hq => hcom (Or.inl hq), fun hq => hcom (Or.inr (Or.inl hq))⟩,
                fun hq => hcom (Or.inr (Or.inr hq))⟩
              rw [if_neg (by simp [hb] : ¬ (decide (c = ';') || decide (c = '[') || decide (c = ']')) = true)] at h
              rw [if_pos hamp] at h
              rcases Bool.or_eq_true_iff.mp h with hq | hq
              · exact absurd (by simpa using hq) hsep
              · exact fun f hf => List.all_eq_true.mp hq f hf
            obtain ⟨vs, hvs⟩ := ucsFields_ok _ hall
            cases hq : ucsFields (pySplit ',' (String.mk (List.drop 1 rest))) with
            | error e => rw [hq] at hvs; exact absurd hvs (by simp)
            | ok vs2 => simp [bind, Except.bind, Except.isOk, Except.toBool]
      · rw [if_neg hamp]
        rfl

/-! ## Remaining auxiliary lemmas -/

theorem exceptMap_isOk {α β : Type} (f : α → β) (e : Except String α) :
    (Except.map f e).isOk = e.isOk := by
  cases e <;> rfl

theorem ucStep_skip_all (l : String) (h : ucFieldCount l ≠ 15)
    (chars : List (Option Nat × RawCodePoint)) : ucStep chars l = Except.ok chars :=
  ucStepFields_skip chars _ h

theorem ucStep_good_ok (l : String) (h : ucLineGood l = true)
    (chars : List (Option Nat × RawCodePoint)) : (ucStep chars l).isOk = true :=
  ucStepFields_ok chars _ h

theorem ucsFields_skip_middle (f : String) (c : Char) (rest : List Char)
    (hd : f.data = c :: rest) (hc : c ≠ '&') :
    ∀ fs1 fs2 : List String, ucsFields (fs1 ++ f :: fs2) = ucsFields (fs1 ++ fs2)
  | [], fs2 => by
    simp only [List.nil_append, ucsFields]
    rw [hd]
    simp only []
    rw [if_pos hc]
  | f1 :: fs1, fs2 => by
    simp only [List.cons_append, ucsFields]
    cases hd1 : f1.data with
    | nil => rfl
    | cons c1 r1 =>
      simp only [List.append_eq]
      rw [ucsFields_skip_middle f c rest hd hc fs1 fs2]

/-! ## The claims -/

/-- C1 (counterexample): the claim asserts that every rendered encoding
entry has a code point of at least 128, but the render-time filter at
line 324 tests the byte value (`character.Character`), not the code
point.  A legacy table slot 0xC0 holding code point U+0041 produces an
entry that is rendered (byte 0xC0 is at least 128) whose code point 0x41
is below 128. -/
theorem c1_render_filter_counterexample :
    Except.map encodingRendered (build_encoding_table sampleUd sampleRt) =
      Except.ok [sampleEntryA] ∧ sampleEntryA.CodePoint < 128 := by
  constructor
  · rfl
  · decide

/-- C1 (amended): every entry of the built, sorted sequence has a byte
value outside 0..31 and distinct from 127 and a non-sentinel code point,
and an entry is rendered if and only if its byte value is at least 128
(entries with byte value below 128 are excluded only at render time and
are still present in the built sequence). -/
theorem c1_rendered_entry_properties (ud : List (Nat × CodePoint)) (rt : List Nat)
    (out : List EncodingEntry) (h : build_encoding_table ud rt = Except.ok out) :
    ∀ e ∈ out, (32 ≤ e.Character ∧ e.Character ≠ 127 ∧ e.CodePoint ≠ 0xffffffff) ∧
      (e ∈ encodingRendered out ↔ 128 ≤ e.Character) := by
  obtain ⟨l, hl, hout⟩ := build_encoding_table_ok ud rt out h
  intro e he
  have he' : e ∈ l := by
    rw [hout] at he
    exact mem_listSort.mp he
  obtain ⟨h1, h2, h3, _⟩ := buildEncodingEntries_props ud 0 rt l hl e he'
  refine ⟨⟨h1, h2, h3⟩, ?_⟩
  unfold encodingRendered
  rw [List.mem_filter]
  constructor
  · intro hf
    have := hf.2
    simp at this
    omega
  · intro h128
    exact ⟨he, by simp; omega⟩

/-- C1 (witness): the amended theorem applied to the sample inputs, at
the entry built from byte 0xC0. -/
theorem c1_witness :
    (32 ≤ sampleEntryA.Character ∧ sampleEntryA.Character ≠ 127 ∧
      sampleEntryA.CodePoint ≠ 0xffffffff) ∧
    (sampleEntryA ∈ encodingRendered sampleOut ↔ 128 ≤ sampleEntryA.Character) :=
  c1_rendered_entry_properties sampleUd sampleRt sampleOut (by rfl) sampleEntryA (by decide)

/-- C2: the sequence returned by `build_encoding_table` is sorted
non-decreasing by code point. -/
theorem c2_builder_output_sorted (ud : List (Nat × CodePoint)) (rt : List Nat)
    (out : List EncodingEntry) (h : build_encoding_table ud rt = Except.ok out) :
    List.Pairwise (fun a b : EncodingEntry => a.CodePoint ≤ b.CodePoint) out := by
  obtain ⟨l, hl, hout⟩ := build_encoding_table_ok ud rt out h
  rw [hout]
  exact (listSort_pairwise encLe encLe_total encLe_trans l).imp
    (fun hab => encLe_codepoint_le _ _ hab)

/-- C2 (witness): the sortedness theorem applied to the sample inputs. -/
theorem c2_witness :
    List.Pairwise (fun a b : EncodingEntry => a.CodePoint ≤ b.CodePoint) sampleOut :=
  c2_builder_output_sorted sampleUd sampleRt sampleOut (by rfl)

/-- C3 (counterexample): the claim asserts that the ordering comparison
excludes the character name, so that two entries with equal code points
compare equal.  In the source the `CharacterName` field carries no
`field(compare=False)` specifier, so it is part of the comparison tuple:
two entries with equal code points and different names compare unequal,
and their order depends on the names. -/
theorem c3_name_compared_counterexample :
    encLt { CodePoint := 65, Character := 201, CharacterName := "A" }
      { CodePoint := 65, Character := 200, CharacterName := "B" } = true ∧
    encLe { CodePoint := 65, Character := 200, CharacterName := "B" }
      { CodePoint := 65, Character := 201, CharacterName := "A" } = false := by
  constructor
  · decide
  · decide

/-- C3 (amended): the comparison excludes only the byte value, comparing
the pair of code point and character name; entries with equal code
points and equal names compare equal regardless of byte value; and
because the builder takes every name from the single Unicode mapping
(so equal code points always carry equal names), the stable sort keeps
entries with equal code points in their original relative order. -/
theorem c3_ordering_amended :
    (∀ (a b : EncodingEntry) (c1 c2 : Nat),
        encLe { a with Character := c1 } { b with Character := c2 } = encLe a b) ∧
    (∀ a b : EncodingEntry, a.CodePoint = b.CodePoint →
        a.CharacterName = b.CharacterName → encLe a b = true ∧ encLe b a = true) ∧
    (∀ (ud : List (Nat × CodePoint)) (rt : List Nat) (l : List EncodingEntry),
        buildEncodingEntries ud 0 rt = Except.ok l → ∀ c : Nat,
        (listSort encLe l).filter (fun e => e.CodePoint == c) =
          l.filter (fun e => e.CodePoint == c)) := by
  refine ⟨?_, ?_, ?_⟩
  · intro a b c1 c2
    simp [encLe, encLt]
  · intro a b hcp hn
    exact ⟨encLe_of_eq a b hcp hn, encLe_of_eq b a hcp.symm hn.symm⟩
  · intro ud rt l hl c
    apply filter_listSort encLe _ encLe_total encLe_trans l
    intro x hx y hy hpx hpy
    obtain ⟨_, _, _, cpx, hlx, hnx⟩ := buildEncodingEntries_props ud 0 rt l hl x hx
    obtain ⟨_, _, _, cpy, hly, hny⟩ := buildEncodingEntries_props ud 0 rt l hl y hy
    have hcx : x.CodePoint = c := by simpa using hpx
    have hcy : y.CodePoint = c := by simpa using hpy
    have hx' : dictLookup ud c = some cpx := by rw [hcx] at hlx; exact hlx
    have hy' : dictLookup ud c = some cpy := by rw [hcy] at hly; exact hly
    rw [hx'] at hy'
    injection hy' with hxy
    exact encLe_of_eq x y (by omega) (by rw [hnx, hny, hxy])

/-- C3 (witness): the amended theorem applied to the sample inputs: the
two equal-code-point entries of `sampleRt2Entries` keep their original
relative order through the sort, and equal code point plus equal name
compare equal. -/
theorem c3_witness :
    ((listSort encLe sampleRt2Entries).filter
        (fun e => e.CodePoint == 0xE5) =
      sampleRt2Entries.filter (fun e => e.CodePoint == 0xE5)) ∧
    (encLe sampleEntryB sampleEntryB = true ∧ encLe sampleEntryB sampleEntryB = true) :=
  ⟨c3_ordering_amended.2.2 sampleUd sampleRt2 sampleRt2Entries (by rfl) 0xE5,
   c3_ordering_amended.2.1 sampleEntryB sampleEntryB rfl rfl⟩

/-- C4: a legacy table slot whose byte value survives the control-byte
and sentinel filters but whose code point is absent from the Unicode
mapping makes `build_encoding_table` fail with the `KeyError` of
`unicode_data[codepoint]`, and the error propagates uncaught through
`write_encoding_table`. -/
theorem c4_missing_codepoint_fails (ud : List (Nat × CodePoint)) (rt : List Nat)
    (tbls : List (String × List Nat)) (nm sn tt : String) (t : Tabulate)
    (i : Nat) (hi : i < rt.length)
    (hbyte : ¬(i < 32 ∨ i = 127 ∨ rt.get ⟨i, hi⟩ = 0xffffffff))
    (hmiss : dictLookup ud (rt.get ⟨i, hi⟩) = none)
    (htbl : dictLookup tbls nm = some rt) :
    build_encoding_table ud rt = Except.error "KeyError" ∧
    write_encoding_table t ud tbls nm sn tt = Except.error "KeyError" := by
  have hb := buildEncodingEntries_missing ud 0 rt i hi (by simpa using hbyte) hmiss
  have hbuild : build_encoding_table ud rt = Except.error "KeyError" := by
    unfold build_encoding_table
    rw [hb]
    rfl
  refine ⟨hbuild, ?_⟩
  unfold write_encoding_table
  rw [htbl]
  simp [bind, Except.bind, hbuild]

/-- C4 (witness): the failure theorem applied to the sample inputs with
the missing code point U+0100 at slot 32. -/
theorem c4_witness :
    build_encoding_table sampleUd sampleRtMissing = Except.error "KeyError" ∧
    write_encoding_table (Tabulate.init 8) sampleUd [("Latin1", sampleRtMissing)]
      "Latin1" "encoding_acorn_latin1" "RISC OS Latin 1" = Except.error "KeyError" :=
  c4_missing_codepoint_fails sampleUd sampleRtMissing [("Latin1", sampleRtMissing)]
    "Latin1" "encoding_acorn_latin1" "RISC OS Latin 1" (Tabulate.init 8)
    32 (by decide) (by decide) (by decide) (by rfl)

/-- C5: the case-table writer emits a data row for exactly those code
points with at least one of upper, lower or title case defined: the loop
of `write_case_change_table` produces the rows of precisely the entries
whose three case fields are not all absent, in mapping order. -/
theorem c5_case_rows_exactly (unicode_data : List (Nat × CodePoint)) :
    caseRows unicode_data = (unicode_data.filter fun p =>
        p.2.UpperCase.isSome || p.2.LowerCase.isSome || p.2.TitleCase.isSome).map
      (fun p => caseRow p.1 p.2) :=
  caseRows_eq_filter unicode_data

/-- C6: in a rendered case-table row, when the title-case mapping is
absent the rendered title-case field falls back to the rendered
upper-case field (so title equals upper whenever title is absent and
upper is present), and when upper is also absent the rendered title-case
field is the zero literal `0x0`. -/
theorem c6_title_case_default (character : CodePoint) :
    (character.TitleCase = none →
      renderTitleCase character = renderUpperCase character) ∧
    (character.TitleCase = none → character.UpperCase = none →
      renderTitleCase character = "0x0") := by
  constructor
  · intro h
    unfold renderTitleCase
    rw [h]
  · intro h hu
    unfold renderTitleCase renderUpperCase
    rw [h, hu]

/-- C6 (witness): the default rule applied to the U+0041 record of
`sampleUd` (title absent, upper absent, so the rendered title is the
rendered upper, namely `0x0`). -/
theorem c6_witness :
    renderTitleCase sampleCpA = renderUpperCase sampleCpA ∧
    renderTitleCase sampleCpA = "0x0" :=
  ⟨(c6_title_case_default _).1 rfl, (c6_title_case_default _).2 rfl rfl⟩

/-- C7 (counterexample): the claim asserts that a tabular row whose
field count differs from the tracked column count is still rendered,
aligned up to the shorter length.  The source calls
`zip(line, self.widths, strict=True)` (line 163), which raises
`ValueError` instead: after adding a one-field row and then a two-field
row, rendering fails. -/
theorem c7_mismatched_row_counterexample :
    (((Tabulate.init 8).add_row ["a"]).add_row ["b", "c"]).lines =
      Except.error "ValueError: zip() arguments have different lengths" := by
  rfl

/-- C7 (amended): rendering an accumulator that contains a tabular row
whose field count differs from the tracked column count raises the
strict-zip `ValueError`; mismatched rows are never silently truncated. -/
theorem c7_mismatched_row_errors (t : Tabulate) (fs : List String)
    (hmem : TabRow.tup fs ∈ t.rows) (hne : fs.length ≠ t.widths.length) :
    (t.lines).isOk = false :=
  linesGo_error t.tab_width t.widths t.rows fs hmem hne

/-- C7 (witness): the amended theorem applied to the accumulator holding
a one-field row while two column widths are tracked. -/
theorem c7_witness :
    ((((Tabulate.init 8).add_row ["a"]).add_row ["b", "c"]).lines).isOk = false :=
  c7_mismatched_row_errors _ ["a"] (by decide) (by decide)

/-- C8 (counterexample): the claim asserts the legacy table parser never
raises because of line content.  A data field whose text after the `&`
marker is not hexadecimal makes `int(field[1:], 16)` raise an uncaught
`ValueError` (line 433), aborting the whole import. -/
theorem c8_content_error_counterexample :
    import_riscos_ucs_tables ["Latin1", "& &zz"] =
      Except.error "ValueError: invalid literal for int() with base 16" := by
  rfl

/-- C8 (amended): the malformations the parser recognises are logged
and skipped without contributing anything or aborting: a data line
lacking the `& ` separator is skipped in every parser state, a field
not starting with `&` is skipped within its line, and input whose data
fields are all non-empty and hexadecimal after a leading `&` parses
without error; but an empty field or a non-hexadecimal field raises an
uncaught error, so the parser can fail on content, not only on
input/output failure. -/
theorem c8_malformed_lines_skipped :
    (∀ (pre post : List String) (l : String), ucsWarnLine l = true →
        import_riscos_ucs_tables (pre ++ l :: post) =
          import_riscos_ucs_tables (pre ++ post)) ∧
    (∀ (fs1 fs2 : List String) (f : String) (c : Char) (rest : List Char),
        f.data = c :: rest → c ≠ '&' →
        ucsFields (fs1 ++ f :: fs2) = ucsFields (fs1 ++ fs2)) ∧
    (∀ ls : List String, (∀ l ∈ ls, ucsLineGood l = true) →
        (import_riscos_ucs_tables ls).isOk = true) := by
  refine ⟨?_, ?_, ?_⟩
  · intro pre post l hwarn
    unfold import_riscos_ucs_tables
    rw [foldlM_skip_middle ucsStep l (fun st => ucsStep_warn l hwarn st) pre post]
  · intro fs1 fs2 f c rest hd hc
    exact ucsFields_skip_middle f c rest hd hc fs1 fs2
  · intro ls hgood
    unfold import_riscos_ucs_tables
    rw [exceptMap_isOk]
    exact foldlM_isOk ucsStep ls ([], none)
      (fun st l hl => ucsStep_ok l (hgood l hl) st)

/-- C8 (witness): the amended theorem applied to concrete input: the
malformed line `&x` is skipped without effect, and the well-formed
two-line input parses without error. -/
theorem c8_witness :
    import_riscos_ucs_tables ["Latin1", "&x", "& &41"] =
      import_riscos_ucs_tables ["Latin1", "& &41"] ∧
    (import_riscos_ucs_tables ["Latin1", "& &41"]).isOk = true :=
  ⟨c8_malformed_lines_skipped.1 ["Latin1"] ["& &41"] "&x" (by decide),
   c8_malformed_lines_skipped.2.2 ["Latin1", "& &41"] (by decide)⟩

/-- C9 (counterexample): the claim asserts that no per-line validation
error is ever raised by the Unicode database parser.  A line with
exactly 15 fields whose code point field is not hexadecimal makes
`int(fields[0], 16)` raise an uncaught `ValueError` (line 381). -/
theorem c9_content_error_counterexample :
    import_unicode_data ["zz;;;;;;;;;;;;;;"] =
      Except.error "ValueError: invalid literal for int() with base 16" := by
  rfl

/-- C9 (amended): a line that does not split into exactly 15 fields on
`;` is silently skipped and contributes nothing to the mapping, and
input whose 15-field lines carry empty-or-hexadecimal code point, upper,
lower and title fields parses without error; but a non-empty,
non-hexadecimal value in one of those fields raises an uncaught error,
so line content can abort the import. -/
theorem c9_malformed_lines_skipped :
    (∀ (pre post : List String) (l : String), ucFieldCount l ≠ 15 →
        import_unicode_data (pre ++ l :: post) = import_unicode_data (pre ++ post)) ∧
    (∀ ls : List String, (∀ l ∈ ls, ucLineGood l = true) →
        (import_unicode_data ls).isOk = true) := by
  constructor
  · intro pre post l hcount
    unfold import_unicode_data
    rw [foldlM_skip_middle ucStep l (ucStep_skip_all l hcount) pre post]
  · intro ls hgood
    unfold import_unicode_data
    exact foldlM_isOk ucStep ls []
      (fun chars l hl => ucStep_good_ok l (hgood l hl) chars)

/-- C9 (witness): the amended theorem applied to concrete input: a
13-field line is skipped without effect, and a well-formed record line
parses without error. -/
theorem c9_witness :
    import_unicode_data
        ["0041;LATIN CAPITAL LETTER A;Lu;0;L;;;;;N;;;;0061;", "bad line"] =
      import_unicode_data ["0041;LATIN CAPITAL LETTER A;Lu;0;L;;;;;N;;;;0061;"] ∧
    (import_unicode_data
        ["0041;LATIN CAPITAL LETTER A;Lu;0;L;;;;;N;;;;0061;"]).isOk = true := by
  constructor
  · exact c9_malformed_lines_skipped.1
      ["0041;LATIN CAPITAL LETTER A;Lu;0;L;;;;;N;;;;0061;"] [] "bad line" (by decide)
  · exact c9_malformed_lines_skipped.2
      ["0041;LATIN CAPITAL LETTER A;Lu;0;L;;;;;N;;;;0061;"] (by decide)

/-- C10: clearing a `Tabulate` accumulator empties both the stored rows
and the tracked column widths: after `clear` the rendering is the empty
sequence, and the rendering of any operations applied after a `clear`
is independent of everything accumulated before it (it depends only on
the configured tab width). -/
theorem c10_clear_resets (t : Tabulate) :
    (t.clear.lines = Except.ok []) ∧
    (∀ (t2 : Tabulate) (ops : List TabOp), t.tab_width = t2.tab_width →
      (applyOps t.clear ops).lines = (applyOps t2.clear ops).lines) := by
  constructor
  · rfl
  · intro t2 ops h
    rw [clear_eq_of_width_eq t t2 h]

/-- C10 (witness): the reset theorem applied to an accumulator already
holding a row and a tracked width, compared against a fresh
accumulator. -/
theorem c10_witness :
    (({ tab_width := 8, rows := [TabRow.tup ["xyz"]], widths := [3] } :
        Tabulate).clear.lines = Except.ok []) ∧
    ((applyOps ({ tab_width := 8, rows := [TabRow.tup ["xyz"]], widths := [3] } :
        Tabulate).clear [TabOp.row ["a"], TabOp.space, TabOp.line "z"]).lines =
      (applyOps (Tabulate.init 8).clear
        [TabOp.row ["a"], TabOp.space, TabOp.line "z"]).lines) :=
  ⟨(c10_clear_resets _).1, (c10_clear_resets _).2 (Tabulate.init 8) _ rfl⟩
